import Mathlib

/-!
Shallow embedding of the `egui_isohedral` tiling engine
(`src/utils.rs` and `src/tiling.rs`), with theorems checking the
natural-language specification against the code.

Conventions of the embedding:
* `f32` values are modelled as exact rationals `ℚ` (the claims of the spec are
  algebraic identities over the reals).
* Rust fixed-size arrays (`[f32; 6]`, `[Vec2; 6]`, ...) are modelled as total
  functions `Nat → _`; the code only ever reads indices inside the array
  bounds under the table contract, and a write loop that touches indices
  `i < n` is modelled by an if-then-else update that keeps the old entry
  elsewhere, exactly mirroring the in-place array mutation.
* Slice indexing that can panic (the colouring table lookups, the remainder
  by `colouring[18]`, and the `tiling_type_data[id]` table index in `reset`)
  is modelled with `Option`/`Except`: a `none`/`error` result is a Rust
  panic.  For `reset`, the `error` payload records the state of the
  structure at the moment of the panic (the fields already assigned before
  the panicking index expression).
* The static per-type table `crate::data::tiling_type_data` is not part of
  the visible sources; the engine is therefore parametrised by a table
  value, and the data contract the spec states for the table supplier is
  modelled explicitly (`TTDWellFormed`).
-/

namespace Isohedral

/-- 2D vector, from `struct Vec2` in `src/utils.rs`. -/
structure Vec2 where
  x : ℚ
  y : ℚ
deriving DecidableEq, Repr

/-- Vector addition, from `impl Add<Vec2> for Vec2`. -/
def Vec2.add (a b : Vec2) : Vec2 :=
  ⟨a.x + b.x, a.y + b.y⟩

/-- 2×2 matrix stored as two columns, from `struct Mat2` in `src/utils.rs`. -/
structure Mat2 where
  x_axis : Vec2
  y_axis : Vec2
deriving DecidableEq, Repr

/-- Matrix–vector product, from `Mat2::mul_vec2`. -/
def Mat2.mul_vec2 (m : Mat2) (rhs : Vec2) : Vec2 :=
  ⟨m.x_axis.x * rhs.x + m.y_axis.x * rhs.y,
   m.x_axis.y * rhs.x + m.y_axis.y * rhs.y⟩

/-- Matrix–matrix product, from `Mat2::mul_mat2` (column-wise). -/
def Mat2.mul_mat2 (a b : Mat2) : Mat2 :=
  ⟨a.mul_vec2 b.x_axis, a.mul_vec2 b.y_axis⟩

/-- Affine map (2×2 matrix plus translation), from `struct Affine2`. -/
structure Affine2 where
  matrix2 : Mat2
  translation : Vec2
deriving DecidableEq, Repr

/-- Constructor from a 6-entry column array, from `Affine2::from_cols_array`. -/
def Affine2.from_cols_array (m0 m1 m2 m3 m4 m5 : ℚ) : Affine2 :=
  ⟨⟨⟨m0, m1⟩, ⟨m2, m3⟩⟩, ⟨m4, m5⟩⟩

/-- Point transform, from `Affine2::transform_point2`: `p ↦ M·p + t`. -/
def Affine2.transform_point2 (a : Affine2) (rhs : Vec2) : Vec2 :=
  Vec2.add (a.matrix2.mul_vec2 rhs) a.translation

/-- Affine composition, from `impl Mul for Affine2` in `src/utils.rs`. -/
def Affine2.mul (a rhs : Affine2) : Affine2 :=
  ⟨a.matrix2.mul_mat2 rhs.matrix2,
   Vec2.add (a.matrix2.mul_vec2 rhs.translation) a.translation⟩

/-!  Spec-side formulations for the refinement claim C7.  These follow the
words of the spec (entrywise matrix product, `(M1,t1) ∘ (M2,t2) =
(M1·M2, M1·t2 + t1)`, `p ↦ M·p + t`), to be compared with the code and its
column-wise definitions above.  Entry `(r, c)` of the column-major `Mat2`
is coordinate `r` of column `c`. -/

/-- Entry `(r, c)` of a `Mat2`: row `r` of column `c`. -/
def Mat2.entry (m : Mat2) (r c : Nat) : ℚ :=
  match r, c with
  | 0, 0 => m.x_axis.x
  | 1, 0 => m.x_axis.y
  | 0, 1 => m.y_axis.x
  | _, _ => m.y_axis.y

/-- Spec formulation of the 2×2 matrix product: entrywise sums of products. -/
def specMatMul (a b : Mat2) : Mat2 :=
  ⟨⟨a.entry 0 0 * b.entry 0 0 + a.entry 0 1 * b.entry 1 0,
    a.entry 1 0 * b.entry 0 0 + a.entry 1 1 * b.entry 1 0⟩,
   ⟨a.entry 0 0 * b.entry 0 1 + a.entry 0 1 * b.entry 1 1,
    a.entry 1 0 * b.entry 0 1 + a.entry 1 1 * b.entry 1 1⟩⟩

/-- Spec formulation of the matrix–vector product `M·p`, entrywise. -/
def specMatVec (m : Mat2) (p : Vec2) : Vec2 :=
  ⟨m.entry 0 0 * p.x + m.entry 0 1 * p.y,
   m.entry 1 0 * p.x + m.entry 1 1 * p.y⟩

/-- Spec formulation of affine composition: `(M1,t1) ∘ (M2,t2) = (M1·M2, M1·t2 + t1)`. -/
def specAffineCompose (a b : Affine2) : Affine2 :=
  ⟨specMatMul a.matrix2 b.matrix2,
   Vec2.add (specMatVec a.matrix2 b.translation) a.translation⟩

/-- Spec formulation of the point transform: `p ↦ M·p + t`. -/
def specTransformPoint (a : Affine2) (p : Vec2) : Vec2 :=
  Vec2.add (specMatVec a.matrix2 p) a.translation

/-- C7: Affine composition: for all affine maps A1 = (M1, t1) and A2 = (M2, t2),
the composition A1 * A2 equals (M1·M2, M1·t2 + t1), and transform_point2 maps a
point p to M·p + t; composition order matches this formula exactly (the left
matrix of the left operand multiplies the translation of the right operand). -/
theorem affine_mul_matches_spec (a b : Affine2) (p : Vec2) :
    Affine2.mul a b = specAffineCompose a b ∧
    Affine2.transform_point2 a p = specTransformPoint a p := by
  constructor
  · simp only [Affine2.mul, specAffineCompose, Mat2.mul_mat2, Mat2.mul_vec2,
      specMatMul, specMatVec, Mat2.entry, Vec2.add]
  · simp only [Affine2.transform_point2, specTransformPoint, Mat2.mul_vec2,
      specMatVec, Mat2.entry, Vec2.add]

/-- C7 witness: the composition formula evaluated at a concrete pair of
affine maps and a concrete point. -/
theorem affine_mul_matches_spec_witness :
    Affine2.mul (Affine2.from_cols_array 1 2 3 4 5 6)
        (Affine2.from_cols_array 7 8 9 10 11 12) =
      specAffineCompose (Affine2.from_cols_array 1 2 3 4 5 6)
        (Affine2.from_cols_array 7 8 9 10 11 12) ∧
    Affine2.transform_point2 (Affine2.from_cols_array 1 2 3 4 5 6) ⟨13, 14⟩ =
      specTransformPoint (Affine2.from_cols_array 1 2 3 4 5 6) ⟨13, 14⟩ :=
  affine_mul_matches_spec (Affine2.from_cols_array 1 2 3 4 5 6)
    (Affine2.from_cols_array 7 8 9 10 11 12) ⟨13, 14⟩

/-!  Coefficient-table evaluation layer, from `src/utils.rs`. -/

/-- Accumulation loop of `ddot`: `total += coeffs[idx] * params[idx]` for
`idx in 0..np`, starting from `0.0`. -/
def ddotLoop (coeffs params : Nat → ℚ) : Nat → ℚ
  | 0 => 0
  | n + 1 => ddotLoop coeffs params n + coeffs n * params n

/-- Affine-combination evaluation, from `ddot` in `src/utils.rs`: the loop
total plus the constant term `coeffs[np]`. -/
def ddot (coeffs params : Nat → ℚ) (np : Nat) : ℚ :=
  ddotLoop coeffs params np + coeffs np

/-- Rust slice tail `&coeffs[k..]` on a coefficient row modelled as a start
offset into the row function. -/
def shift (f : Nat → ℚ) (k : Nat) : Nat → ℚ :=
  fun i => f (k + i)

/-- Vector evaluation, from `fill_vector` in `src/utils.rs`: the x row starts
at offset 0, the y row at offset `np + 1`. -/
def fill_vector (coeffs params : Nat → ℚ) (np : Nat) : Vec2 :=
  ⟨ddot coeffs params np, ddot (shift coeffs (np + 1)) params np⟩

/-- Affine-map evaluation, from `fill_affine` in `src/utils.rs`: six rows at
the offsets used by the code. -/
def fill_affine (coeffs params : Nat → ℚ) (np : Nat) : Affine2 :=
  ⟨⟨⟨ddot coeffs params np, ddot (shift coeffs (np * 3 + 3)) params np⟩,
    ⟨ddot (shift coeffs (np + 1)) params np, ddot (shift coeffs (np * 4 + 4)) params np⟩⟩,
   ⟨ddot (shift coeffs (np * 2 + 2)) params np, ddot (shift coeffs (np * 5 + 5)) params np⟩⟩

/-- Segment-match transform, from `r_match` in `src/utils.rs`: the affine map
sending the unit segment (0,0)–(1,0) onto the segment p–q. -/
def r_match (p q : Vec2) : Affine2 :=
  Affine2.from_cols_array (q.x - p.x) (q.y - p.y) (p.y - q.y) (q.x - p.x) p.x p.y

/-- Orientation matrices, from `M_ORIENTS` in `src/utils.rs`
(IDENTITY, ROT, FLIP, ROFL in that order). -/
def M_ORIENTS (i : Nat) : Affine2 :=
  match i with
  | 0 => Affine2.from_cols_array 1 0 0 1 0 0
  | 1 => Affine2.from_cols_array (-1) 0 0 (-1) 1 0
  | 2 => Affine2.from_cols_array (-1) 0 0 1 1 0
  | _ => Affine2.from_cols_array 1 0 0 (-1) 0 0

/-!  Engine data model, from `src/tiling.rs`. -/

/-- Edge symmetry classes, from `enum EdgeShape` in `src/tiling.rs`. -/
inductive EdgeShape where
  | J
  | U
  | S
  | I
deriving DecidableEq, Repr

/-- One row of the per-type table, from `struct TilingTypeData` declared in
`crate::data` (the data module itself is constant data outside the visible
sources; the engine reads exactly these fields).  Coefficient rows and flag
arrays are modelled as total index functions, matching the data contract of
fixed-width rows. -/
structure TilingTypeData where
  num_params : Nat
  num_aspects : Nat
  num_vertices : Nat
  num_edge_shapes : Nat
  edge_shapes : Nat → EdgeShape
  edge_orientations : Nat → Bool
  default_params : List ℚ
  tiling_vertex_coeffs : Nat → ℚ
  translation_vertex_coeffs : Nat → ℚ
  aspect_xform_coeffs : Nat → ℚ
  colouring : List Nat

/-- Default table row (the `Default` value the zero-initialised engine holds
before its first `reset`). -/
def defaultTTD : TilingTypeData where
  num_params := 0
  num_aspects := 0
  num_vertices := 0
  num_edge_shapes := 0
  edge_shapes := fun _ => EdgeShape.J
  edge_orientations := fun _ => false
  default_params := []
  tiling_vertex_coeffs := fun _ => 0
  translation_vertex_coeffs := fun _ => 0
  aspect_xform_coeffs := fun _ => 0
  colouring := []

/-- Engine state, from `struct IsohedralTiling` in `src/tiling.rs`.  The
fixed-size buffers (`[f32; 6]`, `[Vec2; 6]`, `[Affine2; 6]`, `[bool; 6]`,
`[Affine2; 12]`) are modelled as total index functions; the code only reads
them below the per-type counts. -/
structure IsohedralTiling where
  tiling_type : Nat
  num_params : Nat
  parameters : Nat → ℚ
  vertices : Nat → Vec2
  edges : Nat → Affine2
  reversals : Nat → Bool
  aspects : Nat → Affine2
  t1 : Vec2
  t2 : Vec2
  ttd : TilingTypeData

/-- Zero vector (the derived `Default` of `Vec2`). -/
def defaultVec : Vec2 := ⟨0, 0⟩

/-- Zero affine map (the derived `Default` of `Affine2`). -/
def defaultAffine : Affine2 := ⟨⟨⟨0, 0⟩, ⟨0, 0⟩⟩, ⟨0, 0⟩⟩

/-- The `Default` engine state built by `Self::default()` inside
`IsohedralTiling::new`: all numeric fields zero. -/
def defaultTiling : IsohedralTiling where
  tiling_type := 0
  num_params := 0
  parameters := fun _ => 0
  vertices := fun _ => defaultVec
  edges := fun _ => defaultAffine
  reversals := fun _ => false
  aspects := fun _ => defaultAffine
  t1 := defaultVec
  t2 := defaultVec
  ttd := defaultTTD

/-!  Engine operations, from `impl IsohedralTiling` in `src/tiling.rs`. -/

/-- Model of `self.parameters[..src.len()].copy_from_slice(src)`: the first
`src.length` slots are overwritten, the rest keep their old values. -/
def writeParams (old : Nat → ℚ) (src : List ℚ) : Nat → ℚ :=
  fun i => if h : i < src.length then src.get ⟨i, h⟩ else old i

/-- Vertex computation step of `recompute`: vertex `idx` is evaluated from the
coefficient row starting at offset `2·(np+1)·idx` (the running slice
`data = &data[(2 * (self.num_params + 1))..]`). -/
def computeVertex (ttd : TilingTypeData) (params : Nat → ℚ) (np idx : Nat) : Vec2 :=
  fill_vector (shift ttd.tiling_vertex_coeffs (2 * (np + 1) * idx)) params np

/-- Edge-transform computation step of `recompute`: the segment-match
transform onto vertices `idx` and `(idx+1) % ntv`, composed with the
orientation matrix selected by the two per-edge flags. -/
def computeEdge (verts : Nat → Vec2) (ttd : TilingTypeData) (ntv idx : Nat) : Affine2 :=
  let fl := ttd.edge_orientations (2 * idx)
  let ro := ttd.edge_orientations (2 * idx + 1)
  Affine2.mul (r_match (verts idx) (verts ((idx + 1) % ntv)))
    (M_ORIENTS (2 * (cond fl 1 0) + cond ro 1 0))

/-- Aspect computation step of `recompute`: aspect `idx` is evaluated from
the coefficient rows starting at offset `6·(np+1)·idx`. -/
def computeAspect (ttd : TilingTypeData) (params : Nat → ℚ) (np idx : Nat) : Affine2 :=
  fill_affine (shift ttd.aspect_xform_coeffs (6 * (np + 1) * idx)) params np

/-- Full recompute, from `IsohedralTiling::recompute`: vertices, then edge
transforms and reversal flags, then aspect transforms, then the two
translation vectors.  Array slots at or beyond the per-type counts are not
written and keep their previous values. -/
def recompute (s : IsohedralTiling) : IsohedralTiling :=
  let np := s.num_params
  let ntv := s.ttd.num_vertices
  let newVerts : Nat → Vec2 := fun i =>
    if i < ntv then computeVertex s.ttd s.parameters np i else s.vertices i
  { s with
    vertices := newVerts
    reversals := fun i =>
      if i < ntv then
        s.ttd.edge_orientations (2 * i) != s.ttd.edge_orientations (2 * i + 1)
      else s.reversals i
    edges := fun i =>
      if i < ntv then computeEdge newVerts s.ttd ntv i else s.edges i
    aspects := fun i =>
      if i < s.ttd.num_aspects then computeAspect s.ttd s.parameters np i
      else s.aspects i
    t1 := fill_vector s.ttd.translation_vertex_coeffs s.parameters np
    t2 := fill_vector (shift s.ttd.translation_vertex_coeffs (2 * (np + 1)))
      s.parameters np }

/-- Reset, from `IsohedralTiling::reset`.  The code first assigns
`self.tiling_type = ihtype`, then evaluates `&tiling_type_data[ihtype.0]`:
for an out-of-range id that index expression panics, so the `error` payload
is the state at the moment of the panic (only `tiling_type` already
changed).  In range, it stores the row, sets `num_params`, copies the
default parameters into the first `num_params` slots and recomputes. -/
def reset (table : List TilingTypeData) (s : IsohedralTiling) (t : Nat) :
    Except IsohedralTiling IsohedralTiling :=
  let s1 := { s with tiling_type := t }
  match table.get? t with
  | none => Except.error s1
  | some ttd =>
      Except.ok (recompute
        { s1 with
          num_params := ttd.num_params
          ttd := ttd
          parameters := writeParams s1.parameters ttd.default_params })

/-- Construction, from `IsohedralTiling::new`: `Self::default()` followed by
`reset`; `none` models the panic `new` inherits from `reset` on an
out-of-range id. -/
def new (table : List TilingTypeData) (t : Nat) : Option IsohedralTiling :=
  (reset table defaultTiling t).toOption

/-- Parameter update, from `IsohedralTiling::set_parameters`: copies all six
slots and recomputes. -/
def set_parameters (s : IsohedralTiling) (p : Nat → ℚ) : IsohedralTiling :=
  recompute { s with parameters := p }

/-- Parameter read-back, from `IsohedralTiling::parameters`: copies the whole
six-slot buffer into the out argument. -/
def parametersRead (s : IsohedralTiling) : Nat → ℚ :=
  s.parameters

/-- Edge-shape accessor, from `IsohedralTiling::edge_shape`. -/
def edge_shape (s : IsohedralTiling) (idx : Nat) : EdgeShape :=
  s.ttd.edge_shapes idx

/-!  Colour lookup, from `IsohedralTiling::colour` in `src/tiling.rs`. -/

/-- Truncating remainder followed by the sign fix-up the code performs:
`let mut m = t % nc; if m < 0 \x7b m += nc; \x7d`.  Rust `%` on `isize` is the
truncating remainder, i.e. `Int.tmod`. -/
def fixMod (t nc : Int) : Int :=
  let m := Int.tmod t nc
  if m < 0 then m + nc else m

/-- One colour-recurrence loop: `n` iterations of
`col = colouring[base + col]`, with an out-of-bounds lookup modelling the
Rust index panic. -/
def colourSteps (colouring : List Nat) (base : Nat) : Nat → Nat → Option Nat
  | 0, col => some col
  | n + 1, col =>
      match colouring.get? (base + col) with
      | some c => colourSteps colouring base n c
      | none => none

/-- Colour lookup on a colouring table, from the body of
`IsohedralTiling::colour`: reads the modulus at index 18 (panic if the table
is shorter), takes the fixed-up truncating remainders of both lattice
coordinates (panic if the modulus is zero), starts from the aspect-indexed
entry and applies the two step recurrences at bases 12 and 15. -/
def colourOpt (colouring : List Nat) (t1 t2 : Int) (aspect : Nat) : Option Nat :=
  match colouring.get? 18 with
  | none => none
  | some ncN =>
      if ncN = 0 then none
      else
        let nc : Int := (ncN : Int)
        let mt1 := fixMod t1 nc
        let mt2 := fixMod t2 nc
        match colouring.get? aspect with
        | none => none
        | some col0 =>
            match colourSteps colouring 12 mt1.toNat col0 with
            | none => none
            | some col1 => colourSteps colouring 15 mt2.toNat col1

/-- Colour lookup on the engine state, from `IsohedralTiling::colour`. -/
def colour (s : IsohedralTiling) (t1 t2 : Int) (aspect : Nat) : Option Nat :=
  colourOpt s.ttd.colouring t1 t2 aspect

/-!  Arithmetic facts about the remainder fix-up in `colour`. -/

/-- The truncating remainder followed by the sign fix-up in the code computes the
floor/Euclidean modulo for a positive modulus. -/
theorem fixMod_eq_emod (t c : Int) (hc : 0 < c) : fixMod t c = t % c := by
  have hkey : t % c = t.tmod c % c := by
    conv_lhs => rw [← Int.tdiv_add_tmod t c]
    rw [add_comm, Int.add_mul_emod_self_left]
  have hub : t.tmod c < c := Int.tmod_lt_of_pos t hc
  have hlb : -c < t.tmod c := by
    rcases le_or_lt 0 t with h0 | h0
    · have hn := Int.tmod_nonneg c h0
      linarith
    · have hneg : t.tmod c = -((-t).tmod c) := by
        rw [Int.tmod_def, Int.tmod_def, Int.neg_tdiv]
        ring
      have h2 := Int.tmod_lt_of_pos (-t) hc
      rw [hneg]
      linarith
  show (if t.tmod c < 0 then t.tmod c + c else t.tmod c) = t % c
  by_cases hm : t.tmod c < 0
  · rw [if_pos hm, hkey]
    have h1 : (t.tmod c + c) % c = t.tmod c % c := by
      conv_lhs => rw [show t.tmod c + c = t.tmod c + 1 * c by ring, Int.add_mul_emod_self]
    rw [← h1, Int.emod_eq_of_lt (by linarith) (by linarith)]
  · rw [if_neg hm, hkey, Int.emod_eq_of_lt (by linarith) hub]

/-- The fixed-up remainder is invariant under shifting by any integer
multiple of a positive modulus. -/
theorem fixMod_add_mul (t k c : Int) (hc : 0 < c) : fixMod (t + k * c) c = fixMod t c := by
  rw [fixMod_eq_emod _ _ hc, fixMod_eq_emod _ _ hc, Int.add_mul_emod_self]

/-- C3: Colour periodicity: for every engine state whose colouring modulus
nc (the colouring table entry at index 18) is at least 1, every integers n1
and n2 (including negative values), every aspect, and every integer k,
`colour (n1 + k*nc) n2 aspect = colour n1 n2 aspect` and
`colour n1 (n2 + k*nc) aspect = colour n1 n2 aspect`: the result depends
only on the floor-modulo residues of n1 and n2. -/
theorem colour_periodicity (s : IsohedralTiling) (ncN : Nat) (n1 n2 : Int)
    (aspect : Nat) (k : Int)
    (hnc : s.ttd.colouring.get? 18 = some ncN) (h1 : 1 ≤ ncN) :
    colour s (n1 + k * (ncN : Int)) n2 aspect = colour s n1 n2 aspect ∧
    colour s n1 (n2 + k * (ncN : Int)) aspect = colour s n1 n2 aspect := by
  have hc : (0 : Int) < (ncN : Int) := by exact_mod_cast h1
  have hne : ¬(ncN = 0) := by omega
  constructor <;>
    simp only [colour, colourOpt, hnc, if_neg hne, fixMod_add_mul _ k _ hc]

/-!  Endpoint behaviour of the edge transforms (claim C2). -/

/-- Endpoint computation for one edge: the composed transform sends the
canonical unit segment onto the vertex pair in the order dictated by the
XOR of the two orientation flags. -/
theorem computeEdge_endpoints (verts : Nat → Vec2) (ttd : TilingTypeData)
    (ntv idx : Nat) :
    ((ttd.edge_orientations (2 * idx) != ttd.edge_orientations (2 * idx + 1)) = false →
      (computeEdge verts ttd ntv idx).transform_point2 ⟨0, 0⟩ = verts idx ∧
      (computeEdge verts ttd ntv idx).transform_point2 ⟨1, 0⟩ =
        verts ((idx + 1) % ntv)) ∧
    ((ttd.edge_orientations (2 * idx) != ttd.edge_orientations (2 * idx + 1)) = true →
      (computeEdge verts ttd ntv idx).transform_point2 ⟨0, 0⟩ =
        verts ((idx + 1) % ntv) ∧
      (computeEdge verts ttd ntv idx).transform_point2 ⟨1, 0⟩ = verts idx) := by
  cases hfl : ttd.edge_orientations (2 * idx) <;>
    cases hro : ttd.edge_orientations (2 * idx + 1) <;>
      simp only [computeEdge, hfl, hro, Bool.false_bne, Bool.true_bne,
          Bool.bne_false, Bool.bne_true, Bool.not_false, Bool.not_true, cond,
          M_ORIENTS, r_match, Affine2.from_cols_array, Affine2.mul,
          Affine2.transform_point2, Mat2.mul_mat2, Mat2.mul_vec2, Vec2.add,
          Bool.false_eq_true, Bool.true_eq_false, false_implies, true_implies,
          IsEmpty.forall_iff, forall_true_left, Vec2.mk.injEq] <;>
      constructor <;> intros <;> constructor <;> ring_nf

/-- C2: Reversal consistency: for every tiling type, every parameter vector,
and every edge index idx < num_vertices, after recompute the edge transform
`edges[idx]` applied to the points (0,0) and (1,0) yields exactly the pair
`(vertices[idx], vertices[(idx+1) % num_vertices])` when `reversals[idx]` is
false, and the swapped pair when `reversals[idx]` is true. -/
theorem reversal_consistency (s : IsohedralTiling) (idx : Nat)
    (h : idx < s.ttd.num_vertices) :
    ((recompute s).reversals idx = false →
      ((recompute s).edges idx).transform_point2 ⟨0, 0⟩ = (recompute s).vertices idx ∧
      ((recompute s).edges idx).transform_point2 ⟨1, 0⟩ =
        (recompute s).vertices ((idx + 1) % s.ttd.num_vertices)) ∧
    ((recompute s).reversals idx = true →
      ((recompute s).edges idx).transform_point2 ⟨0, 0⟩ =
        (recompute s).vertices ((idx + 1) % s.ttd.num_vertices) ∧
      ((recompute s).edges idx).transform_point2 ⟨1, 0⟩ = (recompute s).vertices idx) := by
  have h2 : (idx + 1) % s.ttd.num_vertices < s.ttd.num_vertices :=
    Nat.mod_lt _ (by omega)
  have hmain := computeEdge_endpoints
    (fun i => if i < s.ttd.num_vertices then
        computeVertex s.ttd s.parameters s.num_params i
      else s.vertices i)
    s.ttd s.ttd.num_vertices idx
  simp only [if_pos h, if_pos h2] at hmain
  simp only [recompute, if_pos h, if_pos h2]
  exact hmain

/-!  The derived geometry only reads the first `num_params` parameter slots
(claims C4 and C8 depend on this). -/

/-- The `ddot` accumulation loop only reads parameter slots below `n`. -/
theorem ddotLoop_congr (coeffs p1 p2 : Nat → ℚ) (n : Nat)
    (h : ∀ i, i < n → p1 i = p2 i) :
    ddotLoop coeffs p1 n = ddotLoop coeffs p2 n := by
  induction n with
  | zero => rfl
  | succ n ih =>
      simp only [ddotLoop, ih (fun i hi => h i (Nat.lt_succ_of_lt hi)),
        h n (Nat.lt_succ_self n)]

/-- `ddot` only reads parameter slots below `np`. -/
theorem ddot_congr (coeffs p1 p2 : Nat → ℚ) (np : Nat)
    (h : ∀ i, i < np → p1 i = p2 i) :
    ddot coeffs p1 np = ddot coeffs p2 np := by
  simp only [ddot, ddotLoop_congr coeffs p1 p2 np h]

/-- `fill_vector` only reads parameter slots below `np`. -/
theorem fill_vector_congr (coeffs p1 p2 : Nat → ℚ) (np : Nat)
    (h : ∀ i, i < np → p1 i = p2 i) :
    fill_vector coeffs p1 np = fill_vector coeffs p2 np := by
  simp only [fill_vector, ddot_congr _ p1 p2 np h]

/-- `fill_affine` only reads parameter slots below `np`. -/
theorem fill_affine_congr (coeffs p1 p2 : Nat → ℚ) (np : Nat)
    (h : ∀ i, i < np → p1 i = p2 i) :
    fill_affine coeffs p1 np = fill_affine coeffs p2 np := by
  simp only [fill_affine, ddot_congr _ p1 p2 np h]

/-- `computeVertex` only reads parameter slots below `np`. -/
theorem computeVertex_congr (ttd : TilingTypeData) (p1 p2 : Nat → ℚ) (np idx : Nat)
    (h : ∀ i, i < np → p1 i = p2 i) :
    computeVertex ttd p1 np idx = computeVertex ttd p2 np idx := by
  simp only [computeVertex, fill_vector_congr _ p1 p2 np h]

/-- `computeAspect` only reads parameter slots below `np`. -/
theorem computeAspect_congr (ttd : TilingTypeData) (p1 p2 : Nat → ℚ) (np idx : Nat)
    (h : ∀ i, i < np → p1 i = p2 i) :
    computeAspect ttd p1 np idx = computeAspect ttd p2 np idx := by
  simp only [computeAspect, fill_affine_congr _ p1 p2 np h]

/-- `computeEdge` only reads the vertex buffer at `idx` and `(idx+1) % ntv`. -/
theorem computeEdge_congr (verts1 verts2 : Nat → Vec2) (ttd : TilingTypeData)
    (ntv idx : Nat) (h1 : verts1 idx = verts2 idx)
    (h2 : verts1 ((idx + 1) % ntv) = verts2 ((idx + 1) % ntv)) :
    computeEdge verts1 ttd ntv idx = computeEdge verts2 ttd ntv idx := by
  simp only [computeEdge, h1, h2]

/-- Recompute congruence: two states with the same table row and parameter
count, whose parameter buffers agree on the first `num_params` slots,
recompute to the same derived geometry on all valid indices. -/
theorem recompute_congr (a b : IsohedralTiling)
    (hnp : a.num_params = b.num_params) (httd : a.ttd = b.ttd)
    (hp : ∀ i, i < a.num_params → a.parameters i = b.parameters i) :
    (∀ i, i < a.ttd.num_vertices →
      (recompute a).vertices i = (recompute b).vertices i ∧
      (recompute a).edges i = (recompute b).edges i ∧
      (recompute a).reversals i = (recompute b).reversals i) ∧
    (∀ i, i < a.ttd.num_aspects → (recompute a).aspects i = (recompute b).aspects i) ∧
    (recompute a).t1 = (recompute b).t1 ∧ (recompute a).t2 = (recompute b).t2 := by
  have hvert : ∀ i, computeVertex a.ttd a.parameters a.num_params i =
      computeVertex a.ttd b.parameters a.num_params i :=
    fun i => computeVertex_congr a.ttd a.parameters b.parameters a.num_params i hp
  refine ⟨?_, ?_, ?_, ?_⟩
  · intro i hi
    have hmod : (i + 1) % a.ttd.num_vertices < a.ttd.num_vertices :=
      Nat.mod_lt _ (by omega)
    refine ⟨?_, ?_, ?_⟩
    · simp only [recompute, ← httd, ← hnp, if_pos hi]
      exact hvert i
    · simp only [recompute, ← httd, ← hnp, if_pos hi]
      exact computeEdge_congr _ _ a.ttd a.ttd.num_vertices i
        (by simp only [if_pos hi]; exact hvert i)
        (by simp only [if_pos hmod]; exact hvert _)
    · simp only [recompute, ← httd, if_pos hi]
  · intro i hi
    simp only [recompute, ← httd, ← hnp, if_pos hi]
    exact computeAspect_congr a.ttd a.parameters b.parameters a.num_params i hp
  · simp only [recompute, ← httd, ← hnp]
    exact fill_vector_congr _ a.parameters b.parameters a.num_params hp
  · simp only [recompute, ← httd, ← hnp]
    exact fill_vector_congr _ a.parameters b.parameters a.num_params hp

/-- C4 (amended): for every engine state s and every type id t present in
the table (whose row satisfies the table contract on the default-parameter
length), reset(t) succeeds and produces a state that agrees with a freshly
constructed `IsohedralTiling::new(t)` on the tiling type, the parameter
count, the table row, the first `num_params` parameter slots, and all
derived geometry at valid indices (vertices, edges, reversals below
`num_vertices`; aspects below `num_aspects`; both translation vectors).
Parameter slots at or beyond `num_params` retain their prior values, so the
full six-slot buffer need not match the fresh state. -/
theorem reset_matches_new_on_derived (table : List TilingTypeData)
    (s : IsohedralTiling) (t : Nat) (ttd : TilingTypeData)
    (hget : table.get? t = some ttd)
    (hlen : ttd.default_params.length = ttd.num_params) :
    ∃ s2 n, reset table s t = Except.ok s2 ∧ new table t = some n ∧
      s2.tiling_type = n.tiling_type ∧
      s2.num_params = n.num_params ∧
      s2.ttd = n.ttd ∧
      (∀ i, i < n.num_params → s2.parameters i = n.parameters i) ∧
      (∀ i, i < n.ttd.num_vertices →
        s2.vertices i = n.vertices i ∧ s2.edges i = n.edges i ∧
        s2.reversals i = n.reversals i) ∧
      (∀ i, i < n.ttd.num_aspects → s2.aspects i = n.aspects i) ∧
      s2.t1 = n.t1 ∧ s2.t2 = n.t2 := by
  have hparams : ∀ i, i < ttd.num_params →
      writeParams s.parameters ttd.default_params i =
        writeParams defaultTiling.parameters ttd.default_params i := by
    intro i hi
    have hi2 : i < ttd.default_params.length := by
      rw [hlen]
      exact hi
    simp only [writeParams, dif_pos hi2]
  have hcongr := recompute_congr
    { s with tiling_type := t, num_params := ttd.num_params, ttd := ttd,
             parameters := writeParams s.parameters ttd.default_params }
    { defaultTiling with
      tiling_type := t, num_params := ttd.num_params, ttd := ttd,
      parameters := writeParams defaultTiling.parameters ttd.default_params }
    rfl rfl hparams
  refine ⟨recompute
    { s with tiling_type := t, num_params := ttd.num_params, ttd := ttd,
             parameters := writeParams s.parameters ttd.default_params },
    recompute
    { defaultTiling with
      tiling_type := t, num_params := ttd.num_params, ttd := ttd,
      parameters := writeParams defaultTiling.parameters ttd.default_params },
    ?_, ?_, rfl, rfl, rfl, hparams, hcongr.1, hcongr.2.1,
    hcongr.2.2.1, hcongr.2.2.2⟩
  · simp only [reset, hget]
  · simp only [new, reset, hget, Except.toOption]

/-- The `ddot` accumulation loop computes the sum of products over the first
`n` indices. -/
theorem ddotLoop_eq_sum (coeffs params : Nat → ℚ) (n : Nat) :
    ddotLoop coeffs params n = ∑ i in Finset.range n, coeffs i * params i := by
  induction n with
  | zero => rfl
  | succ n ih => rw [ddotLoop, ih, Finset.sum_range_succ]

/-- C6: Affine-combination evaluation: recompute derives each coordinate of
every vertex and of both lattice translation vectors t1 and t2 as
`value = Σ over i < num_params of coeff[i]·param[i]` plus the constant term
`coeff[num_params]`, reading consecutive coefficient rows at stride
`num_params + 1` (two rows per vertex or translation vector: the vertex
rows for vertex idx start at offset `2·(num_params+1)·idx`, the t2 rows at
offset `2·(num_params+1)` after the t1 rows). -/
theorem affine_combination_evaluation (s : IsohedralTiling) (idx : Nat)
    (h : idx < s.ttd.num_vertices) :
    (((recompute s).vertices idx).x =
      (∑ i in Finset.range s.num_params,
        s.ttd.tiling_vertex_coeffs (2 * (s.num_params + 1) * idx + i) * s.parameters i) +
      s.ttd.tiling_vertex_coeffs (2 * (s.num_params + 1) * idx + s.num_params)) ∧
    (((recompute s).vertices idx).y =
      (∑ i in Finset.range s.num_params,
        s.ttd.tiling_vertex_coeffs (2 * (s.num_params + 1) * idx + (s.num_params + 1) + i)
          * s.parameters i) +
      s.ttd.tiling_vertex_coeffs (2 * (s.num_params + 1) * idx + (s.num_params + 1) + s.num_params)) ∧
    ((recompute s).t1.x =
      (∑ i in Finset.range s.num_params,
        s.ttd.translation_vertex_coeffs i * s.parameters i) +
      s.ttd.translation_vertex_coeffs s.num_params) ∧
    ((recompute s).t1.y =
      (∑ i in Finset.range s.num_params,
        s.ttd.translation_vertex_coeffs ((s.num_params + 1) + i) * s.parameters i) +
      s.ttd.translation_vertex_coeffs ((s.num_params + 1) + s.num_params)) ∧
    ((recompute s).t2.x =
      (∑ i in Finset.range s.num_params,
        s.ttd.translation_vertex_coeffs (2 * (s.num_params + 1) + i) * s.parameters i) +
      s.ttd.translation_vertex_coeffs (2 * (s.num_params + 1) + s.num_params)) ∧
    ((recompute s).t2.y =
      (∑ i in Finset.range s.num_params,
        s.ttd.translation_vertex_coeffs (2 * (s.num_params + 1) + (s.num_params + 1) + i)
          * s.parameters i) +
      s.ttd.translation_vertex_coeffs (2 * (s.num_params + 1) + (s.num_params + 1) + s.num_params)) := by
  refine ⟨?_, ?_, ?_, ?_, ?_, ?_⟩ <;>
    simp only [recompute, if_pos h, computeVertex, fill_vector, ddot, shift,
      ddotLoop_eq_sum, Nat.add_assoc]

/-- C8: Parameter round-trip: for every engine state and every parameter
buffer p, calling set_parameters(p) and then reading back with parameters()
yields a buffer whose first num_params entries equal the first num_params
entries of p. -/
theorem parameter_roundtrip (s : IsohedralTiling) (p : Nat → ℚ) (i : Nat)
    (hi : i < s.num_params) :
    parametersRead (set_parameters s p) i = p i := rfl

/-- C9: Edge-shape parameter independence: for every engine state, every
valid edge-shape index idx, and every parameter vector p, the value
returned by edge_shape(idx) after set_parameters(p) equals its value
before the call; the classification only reads the per-type table row. -/
theorem edge_shape_parameter_independence (s : IsohedralTiling) (p : Nat → ℚ)
    (idx : Nat) (hidx : idx < s.ttd.num_edge_shapes) :
    edge_shape (set_parameters s p) idx = edge_shape s idx ∧
    edge_shape (set_parameters s p) idx = (set_parameters s p).ttd.edge_shapes idx := ⟨rfl, rfl⟩

/-- C1 (amended): reset performs no range validation and returns no
InvalidTilingType error value.  For a type id at or beyond the 93-entry
table the index expression `&tiling_type_data[ihtype.0]` panics — but only
after `self.tiling_type` has already been assigned, so the state observable
at the unwind has `tiling_type` changed and every other field unchanged (a
partial reset).  For an id inside the table, reset loads the row, sets
`num_params`, copies the default parameters of the row into the leading
parameter slots, and performs a full recompute. -/
theorem reset_no_validation (table : List TilingTypeData) (s : IsohedralTiling)
    (t : Nat) (hlen : table.length = 93) :
    (93 ≤ t → reset table s t = Except.error { s with tiling_type := t }) ∧
    (∀ ttd, table.get? t = some ttd →
      reset table s t = Except.ok (recompute
        { s with tiling_type := t, num_params := ttd.num_params, ttd := ttd,
                 parameters := writeParams s.parameters ttd.default_params })) := by
  constructor
  · intro hge
    have hnone : table.get? t = none := by
      rw [List.get?_eq_none, hlen]
      exact hge
    simp only [reset, hnone]
  · intro ttd hget
    simp only [reset, hget]

/-- Modelled from the spec: the per-type table for the 93 tiling types lives
in the absent `crate::data` module; the collaborator contract of the spec (§6)
and data invariants (§3) state that each row carries a colouring block
whose per-aspect starting colours and step-recurrence entries are colour
indices in 0..2, with the modulus stored at index 18 and the engine
aspect buffer bounded by 12, and a default-parameter list of length
`num_params`.  This predicate captures that contract. -/
structure TTDWellFormed (ttd : TilingTypeData) : Prop where
  default_len : ttd.default_params.length = ttd.num_params
  aspects_le : ttd.num_aspects ≤ 12
  colouring_len : 19 ≤ ttd.colouring.length
  colouring_entries : ∀ i, i < 18 → ttd.colouring.getD i 0 ≤ 2
  colouring_modulus : 1 ≤ ttd.colouring.getD 18 0

/-- Every colour-recurrence loop started at base 12 or 15 from a colour
index in 0..2 over a contract-satisfying colouring table returns a colour
index in 0..2. -/
theorem colourSteps_bounded (colouring : List Nat) (base : Nat)
    (hbase : base ≤ 15) (hlen : 19 ≤ colouring.length)
    (hentries : ∀ i, i < 18 → colouring.getD i 0 ≤ 2) :
    ∀ n col, col ≤ 2 → ∃ c, colourSteps colouring base n col = some c ∧ c ≤ 2 := by
  intro n
  induction n with
  | zero => exact fun col hcol => ⟨col, rfl, hcol⟩
  | succ n ih =>
      intro col hcol
      have hidx : base + col < colouring.length := by omega
      have hsome : colouring.get? (base + col) = some (colouring.get ⟨base + col, hidx⟩) :=
        List.get?_eq_get hidx
      have hval : colouring.get ⟨base + col, hidx⟩ ≤ 2 := by
        have := hentries (base + col) (by omega)
        rwa [List.getD_eq_get?, hsome, Option.getD_some] at this
      obtain ⟨c, hc, hc2⟩ := ih (colouring.get ⟨base + col, hidx⟩) hval
      refine ⟨c, ?_, hc2⟩
      simp only [colourSteps, hsome]
      exact hc

/-- Shared core for C5 and C10: on a contract-satisfying engine state and a
valid aspect, `colour` returns a colour index in 0..2 (in particular it
returns normally). -/
theorem colour_some_le_two (s : IsohedralTiling) (n1 n2 : Int) (aspect : Nat)
    (hwf : TTDWellFormed s.ttd) (ha : aspect < s.ttd.num_aspects) :
    ∃ c, colour s n1 n2 aspect = some c ∧ c ≤ 2 := by
  have hlen := hwf.colouring_len
  have h18 : (18 : Nat) < s.ttd.colouring.length := by omega
  have hnc : s.ttd.colouring.get? 18 = some (s.ttd.colouring.get ⟨18, h18⟩) :=
    List.get?_eq_get h18
  have hncpos : 1 ≤ s.ttd.colouring.get ⟨18, h18⟩ := by
    have := hwf.colouring_modulus
    rwa [List.getD_eq_get?, hnc, Option.getD_some] at this
  have hasp : aspect < s.ttd.colouring.length := by
    have := hwf.aspects_le
    omega
  have ha0 : s.ttd.colouring.get? aspect = some (s.ttd.colouring.get ⟨aspect, hasp⟩) :=
    List.get?_eq_get hasp
  have ha2 : s.ttd.colouring.get ⟨aspect, hasp⟩ ≤ 2 := by
    have h12 := hwf.aspects_le
    have := hwf.colouring_entries aspect (by omega)
    rwa [List.getD_eq_get?, ha0, Option.getD_some] at this
  obtain ⟨c1, hc1, hc12⟩ := colourSteps_bounded s.ttd.colouring 12 (by omega)
    hlen hwf.colouring_entries
    (fixMod n1 ((s.ttd.colouring.get ⟨18, h18⟩ : Nat) : Int)).toNat
    (s.ttd.colouring.get ⟨aspect, hasp⟩) ha2
  obtain ⟨c2, hc2, hc22⟩ := colourSteps_bounded s.ttd.colouring 15 (by omega)
    hlen hwf.colouring_entries
    (fixMod n2 ((s.ttd.colouring.get ⟨18, h18⟩ : Nat) : Int)).toNat c1 hc12
  refine ⟨c2, ?_, hc22⟩
  have hne : ¬(s.ttd.colouring.get ⟨18, h18⟩ = 0) := by omega
  simp only [colour, colourOpt, hnc, if_neg hne, ha0, hc1, hc2]

/-- C5: Colour range: for every engine state whose colouring table satisfies
the per-type data contract, every integers n1 and n2, and every aspect in
[0, num_aspects), colour(n1, n2, aspect) returns an integer in 0..2. -/
theorem colour_range (s : IsohedralTiling) (n1 n2 : Int) (aspect : Nat)
    (hwf : TTDWellFormed s.ttd) (ha : aspect < s.ttd.num_aspects) :
    ∃ c, colour s n1 n2 aspect = some c ∧ c ≤ 2 :=
  colour_some_le_two s n1 n2 aspect hwf ha

/-- C10: Colour totality: for every contract-satisfying engine state whose
colouring modulus (table entry 18) is at least 1, every valid aspect, and
all integers n1 and n2 (the remainder operation divides by the modulus, so
the positivity hypothesis matters), the colour computation returns
normally — no panic. -/
theorem colour_totality (s : IsohedralTiling) (ncN : Nat) (n1 n2 : Int)
    (aspect : Nat) (hwf : TTDWellFormed s.ttd)
    (hnc : s.ttd.colouring.get? 18 = some ncN) (h1 : 1 ≤ ncN)
    (ha : aspect < s.ttd.num_aspects) :
    (colour s n1 n2 aspect).isSome = true := by
  obtain ⟨c, hc, _⟩ := colour_some_le_two s n1 n2 aspect hwf ha
  rw [hc]
  rfl

/-!  Concrete instances for witness evaluation. -/

/-- Modelled from the spec: a representative per-type table row for concrete
evaluation (the real 93 rows are constant data in the absent `crate::data`
module).  It has no parameters (the code documents that some tiling types
have none), three vertices, one aspect, and a colouring block of length 19
whose modulus entry (index 18) is 3. -/
def exTTD : TilingTypeData where
  num_params := 0
  num_aspects := 1
  num_vertices := 3
  num_edge_shapes := 1
  edge_shapes := fun _ => EdgeShape.J
  edge_orientations := fun i => decide (i % 2 = 1)
  default_params := []
  tiling_vertex_coeffs := fun i => (i : ℚ)
  translation_vertex_coeffs := fun i => (i : ℚ)
  aspect_xform_coeffs := fun i => (i : ℚ)
  colouring := [0, 1, 2, 0, 1, 2, 0, 1, 2, 0, 1, 2, 1, 2, 0, 2, 0, 1, 3]

/-- A second representative row with two parameters. -/
def exTTD2 : TilingTypeData :=
  { exTTD with num_params := 2, default_params := [1/2, 1/3] }

/-- A 93-entry table built from the representative row, matching the
table size stated by the spec. -/
def exTable : List TilingTypeData := List.replicate 93 exTTD

/-- Concrete engine state carrying the representative row. -/
def exState : IsohedralTiling := { defaultTiling with ttd := exTTD }

/-- Concrete engine state carrying the two-parameter row and a nonzero
parameter buffer. -/
def exState2 : IsohedralTiling :=
  { defaultTiling with
    ttd := exTTD2, num_params := 2,
    parameters := fun i => if i = 0 then 5 else if i = 1 then 7 else 0 }

/-- The representative row satisfies the data contract. -/
theorem exTTD_wf : TTDWellFormed exTTD :=
  ⟨rfl, by decide, by decide, by decide, by decide⟩

/-- The state a caller observes when `reset` stops, whether it returned
normally or panicked. -/
def resetObservedState (table : List TilingTypeData) (s : IsohedralTiling)
    (t : Nat) : IsohedralTiling :=
  match reset table s t with
  | Except.ok s2 => s2
  | Except.error s2 => s2

/-!  Witnesses and counterexamples at concrete inputs. -/

/-- C1 witness: the amended reset behaviour evaluated on the concrete
93-entry table at the out-of-range id 100. -/
theorem reset_no_validation_witness :
    exTable.length = 93 ∧
    ((93 ≤ 100 → reset exTable defaultTiling 100 =
        Except.error { defaultTiling with tiling_type := 100 }) ∧
     (∀ ttd, exTable.get? 100 = some ttd →
        reset exTable defaultTiling 100 = Except.ok (recompute
          { defaultTiling with
            tiling_type := 100, num_params := ttd.num_params, ttd := ttd,
            parameters := writeParams defaultTiling.parameters ttd.default_params }))) :=
  ⟨rfl, reset_no_validation exTable defaultTiling 100 rfl⟩

/-- C1 counterexample: resetting to the out-of-range id 93 does not return
normally, and the state observable at the panic has `tiling_type` already
changed from 0 to 93 — the promise of the claim that every field of the engine
state is left unchanged fails. -/
theorem reset_out_of_range_mutates :
    (reset exTable defaultTiling 93).isOk = false ∧
    (resetObservedState exTable defaultTiling 93).tiling_type = 93 ∧
    defaultTiling.tiling_type = 0 :=
  ⟨rfl, rfl, rfl⟩

/-- C2 witness: reversal consistency evaluated at the concrete state and
edge index 0. -/
theorem reversal_consistency_witness :
    0 < exState.ttd.num_vertices ∧
    (((recompute exState).reversals 0 = false →
      ((recompute exState).edges 0).transform_point2 ⟨0, 0⟩ =
        (recompute exState).vertices 0 ∧
      ((recompute exState).edges 0).transform_point2 ⟨1, 0⟩ =
        (recompute exState).vertices ((0 + 1) % exState.ttd.num_vertices)) ∧
     ((recompute exState).reversals 0 = true →
      ((recompute exState).edges 0).transform_point2 ⟨0, 0⟩ =
        (recompute exState).vertices ((0 + 1) % exState.ttd.num_vertices) ∧
      ((recompute exState).edges 0).transform_point2 ⟨1, 0⟩ =
        (recompute exState).vertices 0)) :=
  ⟨by decide, reversal_consistency exState 0 (by decide)⟩

/-- C3 witness: periodicity evaluated at modulus 3, k = 2, and negative n1. -/
theorem colour_periodicity_witness :
    exState.ttd.colouring.get? 18 = some 3 ∧ 1 ≤ 3 ∧
    (colour exState (-5 + 2 * ((3 : Nat) : Int)) 7 0 = colour exState (-5) 7 0 ∧
     colour exState (-5) (7 + 2 * ((3 : Nat) : Int)) 0 = colour exState (-5) 7 0) :=
  ⟨by decide, by decide, colour_periodicity exState 3 (-5) 7 0 2 (by decide) (by decide)⟩

/-- C4 witness: the amended reset-matches-new statement evaluated on the
concrete table at type id 5 from the nonzero-parameter state. -/
theorem reset_matches_new_witness :
    exTable.get? 5 = some exTTD ∧
    exTTD.default_params.length = exTTD.num_params ∧
    (∃ s2 n, reset exTable exState2 5 = Except.ok s2 ∧ new exTable 5 = some n ∧
      s2.tiling_type = n.tiling_type ∧ s2.num_params = n.num_params ∧
      s2.ttd = n.ttd ∧
      (∀ i, i < n.num_params → s2.parameters i = n.parameters i) ∧
      (∀ i, i < n.ttd.num_vertices →
        s2.vertices i = n.vertices i ∧ s2.edges i = n.edges i ∧
        s2.reversals i = n.reversals i) ∧
      (∀ i, i < n.ttd.num_aspects → s2.aspects i = n.aspects i) ∧
      s2.t1 = n.t1 ∧ s2.t2 = n.t2) :=
  ⟨rfl, rfl, reset_matches_new_on_derived exTable exState2 5 exTTD rfl rfl⟩

/-- State reachable by `new(5)` followed by `set_parameters` writing 7 into
every slot. -/
def exMutated : IsohedralTiling :=
  set_parameters ((new exTable 5).getD defaultTiling) (fun _ => 7)

/-- C4 counterexample: resetting the reachable state `exMutated` back to
type 5 succeeds but leaves parameter slot 0 (the row has num_params = 0) at
its prior value 7, while a freshly constructed new(5) holds 0 there — reset
does not restore all six parameter slots. -/
theorem reset_not_full_reset :
    (reset exTable exMutated 5).isOk = true ∧
    (resetObservedState exTable exMutated 5).parameters 0 = 7 ∧
    ((new exTable 5).getD defaultTiling).parameters 0 = 0 :=
  ⟨rfl, rfl, rfl⟩

/-- C5 witness: colour range evaluated at the concrete state with negative
n2. -/
theorem colour_range_witness :
    TTDWellFormed exState.ttd ∧ 0 < exState.ttd.num_aspects ∧
    (∃ c, colour exState 4 (-9) 0 = some c ∧ c ≤ 2) :=
  ⟨exTTD_wf, by decide, colour_range exState 4 (-9) 0 exTTD_wf (by decide)⟩

/-- C6 witness: the affine-combination evaluation statement at the
two-parameter state and vertex 0. -/
theorem affine_combination_witness :
    0 < exState2.ttd.num_vertices ∧
    ((((recompute exState2).vertices 0).x =
      (∑ i in Finset.range exState2.num_params,
        exState2.ttd.tiling_vertex_coeffs (2 * (exState2.num_params + 1) * 0 + i)
          * exState2.parameters i) +
      exState2.ttd.tiling_vertex_coeffs
        (2 * (exState2.num_params + 1) * 0 + exState2.num_params)) ∧
    (((recompute exState2).vertices 0).y =
      (∑ i in Finset.range exState2.num_params,
        exState2.ttd.tiling_vertex_coeffs
          (2 * (exState2.num_params + 1) * 0 + (exState2.num_params + 1) + i)
          * exState2.parameters i) +
      exState2.ttd.tiling_vertex_coeffs
        (2 * (exState2.num_params + 1) * 0 + (exState2.num_params + 1) + exState2.num_params)) ∧
    ((recompute exState2).t1.x =
      (∑ i in Finset.range exState2.num_params,
        exState2.ttd.translation_vertex_coeffs i * exState2.parameters i) +
      exState2.ttd.translation_vertex_coeffs exState2.num_params) ∧
    ((recompute exState2).t1.y =
      (∑ i in Finset.range exState2.num_params,
        exState2.ttd.translation_vertex_coeffs ((exState2.num_params + 1) + i)
          * exState2.parameters i) +
      exState2.ttd.translation_vertex_coeffs ((exState2.num_params + 1) + exState2.num_params)) ∧
    ((recompute exState2).t2.x =
      (∑ i in Finset.range exState2.num_params,
        exState2.ttd.translation_vertex_coeffs (2 * (exState2.num_params + 1) + i)
          * exState2.parameters i) +
      exState2.ttd.translation_vertex_coeffs (2 * (exState2.num_params + 1) + exState2.num_params)) ∧
    ((recompute exState2).t2.y =
      (∑ i in Finset.range exState2.num_params,
        exState2.ttd.translation_vertex_coeffs
          (2 * (exState2.num_params + 1) + (exState2.num_params + 1) + i)
          * exState2.parameters i) +
      exState2.ttd.translation_vertex_coeffs
        (2 * (exState2.num_params + 1) + (exState2.num_params + 1) + exState2.num_params))) :=
  ⟨by decide, affine_combination_evaluation exState2 0 (by decide)⟩

/-- C8 witness: the round-trip evaluated at the two-parameter state,
slot 1. -/
theorem parameter_roundtrip_witness :
    1 < exState2.num_params ∧
    parametersRead (set_parameters exState2 (fun _ => 9)) 1 = 9 :=
  ⟨by decide, parameter_roundtrip exState2 (fun _ => 9) 1 (by decide)⟩

/-- C9 witness: edge-shape invariance under a parameter update at edge 0. -/
theorem edge_shape_independence_witness :
    0 < exState.ttd.num_edge_shapes ∧
    (edge_shape (set_parameters exState (fun _ => 4)) 0 = edge_shape exState 0 ∧
     edge_shape (set_parameters exState (fun _ => 4)) 0 =
       (set_parameters exState (fun _ => 4)).ttd.edge_shapes 0) :=
  ⟨by decide, edge_shape_parameter_independence exState (fun _ => 4) 0 (by decide)⟩

/-- C10 witness: colour totality evaluated with negative n1. -/
theorem colour_totality_witness :
    TTDWellFormed exState.ttd ∧ exState.ttd.colouring.get? 18 = some 3 ∧
    1 ≤ 3 ∧ 0 < exState.ttd.num_aspects ∧
    (colour exState (-11) 6 0).isSome = true :=
  ⟨exTTD_wf, by decide, by decide, by decide,
   colour_totality exState 3 (-11) 6 0 exTTD_wf (by decide) (by decide) (by decide)⟩

end Isohedral
